import Mathlib

set_option maxRecDepth 200000

set_option maxHeartbeats 4000000

/-!
Shallow embedding of the persistence-and-versioning core of the YAML
editor (src/app/yaml_editor.py): content fingerprinting, change
detection, backup creation, validate-compare-backup-write sequencing of
the save endpoint, the backup listing, and the restore endpoint.

The filesystem the program touches is modelled as a state: the canonical
document (an optional text) and the flat backup directory (a list of
named files). External collaborators are oracles: the YAML parser is a
function argument giving the outcome of yaml.safe_load, the wall clock is
a datetime argument, and filesystem failures that the code catches are
injected through explicit failure arguments.
-/

namespace YamlEditor

/-! ## SHA-256 over byte lists, the model of hashlib.sha256(...).hexdigest() -/

/-- Bitwise XOR of the low fuel bits of two naturals, least significant
bit first, by plain arithmetic. -/
def xorAux : Nat → Nat → Nat → Nat
  | 0, _, _ => 0
  | fuel+1, n, m => (n % 2 + m % 2) % 2 + 2 * xorAux fuel (n / 2) (m / 2)

/-- Bitwise AND of the low fuel bits of two naturals. -/
def andAux : Nat → Nat → Nat → Nat
  | 0, _, _ => 0
  | fuel+1, n, m => n % 2 * (m % 2) + 2 * andAux fuel (n / 2) (m / 2)

def xor32 (a b : Nat) : Nat := xorAux 32 a b

def and32 (a b : Nat) : Nat := andAux 32 a b

/-- Bitwise complement of a 32-bit word. -/
def not32 (a : Nat) : Nat := 4294967295 - a % 4294967296

/-- Right rotation of a 32-bit word by r bits, where p is 2 to the r and
q is 2 to the (32 - r), passed as precomputed constants. -/
def rotrBy (p q a : Nat) : Nat := a / p + a % p * q

/-- Right shift of a 32-bit word, where p is the power of two shifted by. -/
def shrBy (p a : Nat) : Nat := a / p

/-- Addition modulo 2 to the 32. -/
def add32 (a b : Nat) : Nat := (a + b) % 4294967296

/-- UTF-8 encoding of a single character as a list of byte values. -/
def utf8EncodeChar (c : Char) : List Nat :=
  let n := c.toNat
  if n < 128 then [n]
  else if n < 2048 then [192 + n / 64, 128 + n % 64]
  else if n < 65536 then [224 + n / 4096, 128 + n / 64 % 64, 128 + n % 64]
  else [240 + n / 262144, 128 + n / 4096 % 64, 128 + n / 64 % 64, 128 + n % 64]

/-- UTF-8 encoding of a string as a list of byte values, the model of
Python content.encode of utf-8. -/
def utf8Bytes (s : String) : List Nat := s.data.flatMap utf8EncodeChar

/-- Big-endian 8-byte encoding of a natural number. -/
def be64 (n : Nat) : List Nat :=
  [n / 72057594037927936 % 256, n / 281474976710656 % 256, n / 1099511627776 % 256,
   n / 4294967296 % 256, n / 16777216 % 256, n / 65536 % 256, n / 256 % 256, n % 256]

/-- SHA-256 message padding: append the byte 0x80, zero bytes, and the
64-bit big-endian bit length, reaching a multiple of 64 bytes. -/
def sha256pad (msg : List Nat) : List Nat :=
  let l := msg.length
  let k := (64 - (l + 9) % 64) % 64
  msg ++ 128 :: (List.replicate k 0 ++ be64 (8 * l))

def chunksAux : Nat → List Nat → List (List Nat)
  | 0, _ => []
  | _, [] => []
  | fuel+1, l => l.take 64 :: chunksAux fuel (l.drop 64)

/-- Split a byte list into 64-byte blocks. -/
def chunks64 (l : List Nat) : List (List Nat) := chunksAux l.length l

/-- Group bytes into big-endian 32-bit words. -/
def beWords : List Nat → List Nat
  | b0 :: b1 :: b2 :: b3 :: rest => (((b0 * 256 + b1) * 256 + b2) * 256 + b3) :: beWords rest
  | _ => []

def smallSigma0 (x : Nat) : Nat :=
  xor32 (xor32 (rotrBy 128 33554432 x) (rotrBy 262144 16384 x)) (shrBy 8 x)

def smallSigma1 (x : Nat) : Nat :=
  xor32 (xor32 (rotrBy 131072 32768 x) (rotrBy 524288 8192 x)) (shrBy 1024 x)

def bigSigma0 (x : Nat) : Nat :=
  xor32 (xor32 (rotrBy 4 1073741824 x) (rotrBy 8192 524288 x)) (rotrBy 4194304 1024 x)

def bigSigma1 (x : Nat) : Nat :=
  xor32 (xor32 (rotrBy 64 67108864 x) (rotrBy 2048 2097152 x)) (rotrBy 33554432 128 x)

/-- Extend the 16 message words of a block to 64, keeping the word list
reversed (most recent word first) while extending. -/
def extendAux : Nat → List Nat → List Nat
  | 0, wr => wr
  | fuel+1, wr =>
    extendAux fuel
      (add32 (add32 (wr.getD 15 0) (smallSigma0 (wr.getD 14 0)))
        (add32 (wr.getD 6 0) (smallSigma1 (wr.getD 1 0))) :: wr)

def schedule (w : List Nat) : List Nat := (extendAux 48 w.reverse).reverse

/-- The eight 32-bit working variables of the SHA-256 compression. -/
structure Words8 where
  a : Nat
  b : Nat
  c : Nat
  d : Nat
  e : Nat
  f : Nat
  g : Nat
  h : Nat
  deriving DecidableEq

def roundStep (st : Words8) (kw : Nat × Nat) : Words8 :=
  let t1 := add32 st.h (add32 (bigSigma1 st.e)
    (add32 (xor32 (and32 st.e st.f) (and32 (not32 st.e) st.g)) (add32 kw.1 kw.2)))
  let t2 := add32 (bigSigma0 st.a)
    (xor32 (xor32 (and32 st.a st.b) (and32 st.a st.c)) (and32 st.b st.c))
  ⟨add32 t1 t2, st.a, st.b, st.c, add32 st.d t1, st.e, st.f, st.g⟩

/-- The 64 SHA-256 round constants. -/
def K : List Nat :=
  [1116352408, 1899447441, 3049323471, 3921009573, 961987163, 1508970993,
   2453635748, 2870763221, 3624381080, 310598401, 607225278, 1426881987,
   1925078388, 2162078206, 2614888103, 3248222580, 3835390401, 4022224774,
   264347078, 604807628, 770255983, 1249150122, 1555081692, 1996064986,
   2554220882, 2821834349, 2952996808, 3210313671, 3336571891, 3584528711,
   113926993, 338241895, 666307205, 773529912, 1294757372, 1396182291,
   1695183700, 1986661051, 2177026350, 2456956037, 2730485921, 2820302411,
   3259730800, 3345764771, 3516065817, 3600352804, 4094571909, 275423344,
   430227734, 506948616, 659060556, 883997877, 958139571, 1322822218,
   1537002063, 1747873779, 1955562222, 2024104815, 2227730452, 2361852424,
   2428436474, 2756734187, 3204031479, 3329325298]

def processChunk (h0 : Words8) (chunk : List Nat) : Words8 :=
  let st := (K.zip (schedule (beWords chunk))).foldl roundStep h0
  ⟨add32 h0.a st.a, add32 h0.b st.b, add32 h0.c st.c, add32 h0.d st.d,
   add32 h0.e st.e, add32 h0.f st.f, add32 h0.g st.g, add32 h0.h st.h⟩

/-- SHA-256 of a byte list, as the eight 32-bit words of the digest.
Checked against hashlib on the empty, single-block and example inputs. -/
def sha256words (msg : List Nat) : Words8 :=
  (chunks64 (sha256pad msg)).foldl processChunk
    ⟨1779033703, 3144134277, 1013904242, 2773480762, 1359893119, 2600822924, 528734635, 1541459225⟩

/-- The character of a hexadecimal digit (inputs are always below 16). -/
def hexChar : Nat → Char
  | 0 => '0' | 1 => '1' | 2 => '2' | 3 => '3' | 4 => '4' | 5 => '5' | 6 => '6' | 7 => '7'
  | 8 => '8' | 9 => '9' | 10 => 'a' | 11 => 'b' | 12 => 'c' | 13 => 'd' | 14 => 'e' | _ => 'f'

/-- The eight lowercase hex digits of a 32-bit word, most significant
digit first. -/
def toHex8 (n : Nat) : List Char :=
  [hexChar (n / 268435456 % 16), hexChar (n / 16777216 % 16), hexChar (n / 1048576 % 16),
   hexChar (n / 65536 % 16), hexChar (n / 4096 % 16), hexChar (n / 256 % 16),
   hexChar (n / 16 % 16), hexChar (n % 16)]

/-- SHA-256 of a byte list as a lowercase hex string, the model of
hexdigest of Python hashlib. -/
def sha256hex (msg : List Nat) : String :=
  let d := sha256words msg
  String.mk (toHex8 d.a ++ toHex8 d.b ++ toHex8 d.c ++ toHex8 d.d ++
    toHex8 d.e ++ toHex8 d.f ++ toHex8 d.g ++ toHex8 d.h)

/-- Model of get_file_hash (src/app/yaml_editor.py lines 41-43): the
SHA-256 hex digest of the UTF-8 encoding of the content. -/
def get_file_hash (content : String) : String := sha256hex (utf8Bytes content)

/-! ## String helpers modelling Python string tests -/

/-- Whether needle occurs as a contiguous sublist of the second list. -/
def containsSubList (needle : List Char) : List Char → Bool
  | [] => needle.isEmpty
  | c :: rest => needle.isPrefixOf (c :: rest) || containsSubList needle rest

/-- Model of the Python containment test sub in hay on strings. -/
def pyIn (sub hay : String) : Bool := containsSubList sub.data hay.data

/-- Model of the Python str.endswith test. -/
def pyEndsWith (s suffix : String) : Bool := suffix.data.isSuffixOf s.data

/-! ## Wall-clock timestamps and the backup naming convention -/

/-- A wall-clock time at second resolution, as supplied by datetime.now().
The fields carry the ranges datetime guarantees (see Valid below). -/
structure DateTime where
  year : Nat
  month : Nat
  day : Nat
  hour : Nat
  minute : Nat
  second : Nat
  deriving DecidableEq

/-- The character of a decimal digit (inputs are always below 10). -/
def digitChar : Nat → Char
  | 0 => '0' | 1 => '1' | 2 => '2' | 3 => '3' | 4 => '4'
  | 5 => '5' | 6 => '6' | 7 => '7' | 8 => '8' | _ => '9'

/-- Fixed-width zero-padded decimal rendering of n, most significant
digit first: the strftime rendering of a bounded numeric field. -/
def padDigits : Nat → Nat → List Char
  | 0, _ => []
  | w+1, n => digitChar (n / 10 ^ w) :: padDigits w (n % 10 ^ w)

/-- Model of strftime of "%Y%m%d_%H%M%S" (src/app/yaml_editor.py line 49). -/
def strftimeTS (t : DateTime) : List Char :=
  padDigits 4 t.year ++ (padDigits 2 t.month ++ (padDigits 2 t.day ++ ('_' ::
    (padDigits 2 t.hour ++ (padDigits 2 t.minute ++ padDigits 2 t.second)))))

/-- The backup filename services_YYYYMMDD_HHMMSS.yaml built at line 50. -/
def backupFilename (t : DateTime) : String :=
  String.mk ("services_".data ++ (strftimeTS t ++ ".yaml".data))

/-- The field ranges datetime.now() guarantees. -/
def DateTime.Valid (t : DateTime) : Prop :=
  1 ≤ t.year ∧ t.year ≤ 9999 ∧ 1 ≤ t.month ∧ t.month ≤ 12 ∧ 1 ≤ t.day ∧ t.day ≤ 31 ∧
    t.hour ≤ 23 ∧ t.minute ≤ 59 ∧ t.second ≤ 59

instance (t : DateTime) : Decidable t.Valid := by
  unfold DateTime.Valid; infer_instance

/-- Chronological order on wall-clock times: lexicographic by field. -/
def DateTime.Before (t u : DateTime) : Prop :=
  t.year < u.year ∨ (t.year = u.year ∧ (t.month < u.month ∨ (t.month = u.month ∧
    (t.day < u.day ∨ (t.day = u.day ∧ (t.hour < u.hour ∨ (t.hour = u.hour ∧
    (t.minute < u.minute ∨ (t.minute = u.minute ∧ t.second < u.second)))))))))

instance (t u : DateTime) : Decidable (t.Before u) := by
  unfold DateTime.Before; infer_instance

/-! ## The filesystem state and the modelled operations -/

/-- A file in the backup directory: name, content, modification time. -/
structure BEntry where
  name : String
  content : String
  mtime : Nat
  deriving DecidableEq

/-- The filesystem state the editor touches: the canonical YAML document
(none when the file does not exist) and the flat backup directory. -/
structure St where
  canonical : Option String
  backups : List BEntry
  deriving DecidableEq

/-- Find a file of the backup directory by name (the model of
os.path.exists on the joined path, and of reading that file). -/
def lookupB (l : List BEntry) (n : String) : Option BEntry :=
  l.find? (fun e => e.name == n)

/-- Model of shutil.copy2 into the backup directory: overwrite the file
bearing this name when present (same-second collisions overwrite a
backup), create it otherwise. -/
def upsertB : List BEntry → String → String → Nat → List BEntry
  | [], n, c, m => [⟨n, c, m⟩]
  | e :: rest, n, c, m =>
    if e.name == n then ⟨n, c, m⟩ :: rest else e :: upsertB rest n c m

/-- Outcome of yaml.safe_load on a candidate text: parses, raises a
YAMLError, or raises some other exception. The YAML parser is an external
library, so the embedding takes its outcome as an oracle argument. -/
inductive ParseOutcome where
  | ok
  | yamlError (msg : String)
  | otherError (msg : String)
  deriving DecidableEq

/-- Model of validate_yaml (src/app/yaml_editor.py lines 72-80). -/
def validate_yaml (parse : String → ParseOutcome) (content : String) : Bool × Option String :=
  match parse content with
  | .ok => (true, none)
  | .yamlError e => (false, some e)
  | .otherError e => (false, some ("Unexpected error: " ++ e))

/-- Model of create_backup (src/app/yaml_editor.py lines 45-58). now is
the wall clock, mt the modification time the new file gets; copyFail
injects a makedirs or copy2 exception, which the code catches, returning
None with the directory unchanged. -/
def create_backup (now : DateTime) (mt : Nat) (copyFail : Bool) (s : St) :
    Option String × St :=
  match s.canonical with
  | some c =>
    if copyFail then (none, s)
    else
      (some (backupFilename now),
        { s with backups := upsertB s.backups (backupFilename now) c mt })
  | none => (none, s)

/-- Model of content_changed (src/app/yaml_editor.py lines 60-70).
readFail injects an exception while reading the existing canonical file,
which the code catches, assuming changed. -/
def content_changed (readFail : Bool) (new_content : String) (s : St) : Bool :=
  match s.canonical with
  | some current =>
    if readFail then true
    else get_file_hash new_content != get_file_hash current
  | none => true

/-- The default document written on first access
(src/app/yaml_editor.py lines 92-110). -/
def default_content : String :=
  "# Homepage Services Configuration\n# This file defines the services displayed on your homepage dashboard\n# Documentation: https://gethomepage.dev/en/configs/services/\n\n# Example service configuration:\n# - Group Name:\n#     - Service Name:\n#         href: http://localhost:8080\n#         description: Service description\n#         icon: service-icon\n\n- Development:\n    - YAML Editor:\n        href: http://localhost:8080\n        description: Edit services configuration\n        icon: mdi-pencil\n\n# Add your services below:\n"

/-- The placeholder document returned when reading fails
(src/app/yaml_editor.py line 117). -/
def error_content (e : String) : String :=
  "# Error reading file: " ++ e ++ "\n# Please check file permissions and try again.\n"

/-- Model of read_yaml_file (src/app/yaml_editor.py lines 82-117): the
canonical text when present; when absent, the default document is
persisted and returned. fail injects an exception with its message,
answered by the placeholder document. -/
def read_yaml_file (fail : Option String) (s : St) : String × St :=
  match fail with
  | some e => (error_content e, s)
  | none =>
    match s.canonical with
    | some c => (c, s)
    | none => (default_content, { s with canonical := some default_content })

/-- Model of write_yaml_file (src/app/yaml_editor.py lines 119-128).
fail injects a write exception with its message. -/
def write_yaml_file (fail : Option String) (content : String) (s : St) :
    (Bool × Option String) × St :=
  match fail with
  | some e => ((false, some e), s)
  | none => ((true, none), { s with canonical := some content })

/-- Result of the save endpoint, abstracting its JSON answers: rejected
is the 400 validation answer carrying the error text, noOp the
no-changes answer, saved carries the backup filename mentioned in the
success message (none when no backup was made), saveError the 500
write-failure answer. -/
inductive SaveResult where
  | rejected (error : String)
  | noOp
  | saved (backup : Option String)
  | saveError (error : String)
  deriving DecidableEq

/-- Model of the save endpoint (src/app/yaml_editor.py lines 174-222):
validate, compare, back up, overwrite. -/
def save (parse : String → ParseOutcome) (now : DateTime) (mt : Nat)
    (readFail copyFail : Bool) (writeFail : Option String)
    (content : String) (s : St) : SaveResult × St :=
  let v := validate_yaml parse content
  if v.1 = false then
    (.rejected ("YAML syntax error: " ++ v.2.getD ""), s)
  else if content_changed readFail content s = false then
    (.noOp, s)
  else
    let b := create_backup now mt copyFail s
    let w := write_yaml_file writeFail content b.2
    if w.1.1 then (.saved b.1, w.2)
    else (.saveError ("Error saving file: " ++ (w.1.2.getD "")), w.2)

/-- One row of the backups listing: filename, size in bytes, and the
modification time (its strftime rendering is abstracted to the raw
time). -/
structure BackupInfo where
  filename : String
  size : Nat
  modified : Nat
  deriving DecidableEq

/-- Code-point lexicographic comparison of character lists, the order
Python string comparison uses (proved below to agree with the Lean
string order). -/
def charListLe : List Char → List Char → Bool
  | [], _ => true
  | _ :: _, [] => false
  | x :: xs, y :: ys =>
    if x.toNat < y.toNat then true
    else if y.toNat < x.toNat then false
    else charListLe xs ys

/-- Code-point lexicographic comparison of strings. -/
def pyStrLe (a b : String) : Bool := charListLe a.data b.data

/-- The comparison relation Python sorted uses on filenames. -/
def pyLeR (a b : String) : Prop := pyStrLe a b = true

instance (a b : String) : Decidable (pyLeR a b) :=
  inferInstanceAs (Decidable (pyStrLe a b = true))

/-- Model of the backups endpoint (src/app/yaml_editor.py lines 234-253):
enumerate the backup directory, sort ascending and reverse (Python sorted
with reverse=True), keep names ending in .yaml, stat each file. -/
def list_backups (s : St) : List BackupInfo :=
  let names := (List.insertionSort pyLeR (s.backups.map (fun e => e.name))).reverse
  names.filterMap (fun n =>
    if pyEndsWith n ".yaml" then
      match lookupB s.backups n with
      | some e => some ⟨e.name, (utf8Bytes e.content).length, e.mtime⟩
      | none => none
    else none)

/-- Result of the restore endpoint: invalidFilename is the 400 answer of
the line 260 safety check, notFound the 404 answer, restored carries the
returned content and the name of the backup taken of the pre-restore
document. -/
inductive RestoreResult where
  | invalidFilename
  | notFound
  | restored (content : String) (previousBackup : Option String)
  deriving DecidableEq

/-- Model of the restore endpoint (src/app/yaml_editor.py lines 255-287).
The safety check is the literal line 260 test. The copy of the snapshot
onto the canonical path re-reads the snapshot file after the pre-restore
backup was created (so a same-second collision is modelled faithfully);
this copy is modelled as succeeding, while copyFail injects a failure of
the pre-restore backup and readFail one of the final read_yaml_file. -/
def restore_backup (now : DateTime) (mt : Nat) (copyFail : Bool)
    (readFail : Option String) (filename : String) (s : St) : RestoreResult × St :=
  if pyIn ".." filename || pyIn "/" filename || !(pyEndsWith filename ".yaml") then
    (.invalidFilename, s)
  else
    match lookupB s.backups filename with
    | none => (.notFound, s)
    | some e0 =>
      let b := create_backup now mt copyFail s
      let e := (lookupB b.2.backups filename).getD e0
      let s2 := { b.2 with canonical := some e.content }
      let r := read_yaml_file readFail s2
      (.restored r.1 b.1, r.2)

/-! ## Spec-side definitions, for comparison with the implementation -/

/-- Split a character list at the path separator. -/
def splitSlash : List Char → List (List Char)
  | [] => [[]]
  | c :: rest =>
    if c = '/' then [] :: splitSlash rest
    else
      match splitSlash rest with
      | s :: ss => (c :: s) :: ss
      | [] => [[c]]

/-- Depth tracking of lexical path resolution: fold the segments of a
relative filename starting at depth 0 (the backup directory itself);
empty and single-dot segments keep the depth, a dotdot segment pops (none
when it would pop above the backup directory), any other segment pushes. -/
def segsDepth : List (List Char) → Nat → Option Nat
  | [], d => some d
  | seg :: rest, d =>
    if seg = [] ∨ seg = ['.'] then segsDepth rest d
    else if seg = ['.', '.'] then
      match d with
      | 0 => none
      | d'+1 => segsDepth rest d'
    else segsDepth rest (d + 1)

/-- Modelled from the spec: whether the resolved path of
os.path.join(BACKUP_DIR, filename) stays strictly within the backup
directory, under lexical resolution with no symlinks. The spec asserts a
re-validation of this inside the backup read; the source has no such
separate check, so the notion itself is stated from the spec for
comparison with what line 260 enforces. -/
def staysWithinBackupDir (filename : String) : Bool :=
  match segsDepth (splitSlash filename.data) 0 with
  | some d => decide (1 ≤ d)
  | none => false

/-- The filename safety contract as the spec words it: no path segment
equal to the parent-directory marker, no path separator, and the
canonical file extension. Stated from the spec for comparison with the
implemented line 260 check. -/
def specSafeFilename (filename : String) : Bool :=
  !((splitSlash filename.data).any (fun seg => seg == ['.', '.'])) &&
    !(pyIn "/" filename) && pyEndsWith filename ".yaml"

/-- The snapshot naming convention services_YYYYMMDD_HHMMSS.yaml of the
spec: the name is the backup filename of some wall-clock time. Stated
from the spec for comparison with the implemented listing filter. -/
def matchesConvention (n : String) : Prop :=
  ∃ t : DateTime, t.Valid ∧ n = backupFilename t

end YamlEditor

namespace YamlEditor

/-! ## Supporting lemmas: digits, padding, lexicographic order -/

theorem digitChar_ne_dot (d : Nat) : digitChar d ≠ '.' := by
  unfold digitChar; split <;> decide

theorem digitChar_ne_slash (d : Nat) : digitChar d ≠ '/' := by
  unfold digitChar; split <;> decide

theorem digitChar_lt_iff : ∀ d1 < 10, ∀ d2 < 10,
    (digitChar d1 < digitChar d2 ↔ d1 < d2) := by decide

theorem digitChar_inj : ∀ d1 < 10, ∀ d2 < 10,
    digitChar d1 = digitChar d2 → d1 = d2 := by decide

theorem padDigits_length (w n : Nat) : (padDigits w n).length = w := by
  induction w generalizing n with
  | zero => rfl
  | succ w ih => simp [padDigits, ih]

theorem padDigits_mem (w n : Nat) (c : Char) (hc : c ∈ padDigits w n) :
    ∃ d, c = digitChar d := by
  induction w generalizing n with
  | zero => simp [padDigits] at hc
  | succ w ih =>
    simp only [padDigits, List.mem_cons] at hc
    rcases hc with h | h
    · exact ⟨_, h⟩
    · exact ih _ h

theorem lex_append_left (r : Char → Char → Prop) (p x y : List Char)
    (h : List.Lex r x y) : List.Lex r (p ++ x) (p ++ y) := by
  induction p with
  | nil => exact h
  | cons c cs ih => exact List.Lex.cons ih

theorem lex_append_of_lex (r : Char → Char → Prop) {a b : List Char} (c d : List Char)
    (h : List.Lex r a b) (hlen : a.length = b.length) :
    List.Lex r (a ++ c) (b ++ d) := by
  induction h with
  | nil => simp at hlen
  | rel h' => exact List.Lex.rel h'
  | cons h' ih => exact List.Lex.cons (ih (by simpa using hlen))

theorem lex_cons_inv (r : Char → Char → Prop) (x y : Char) (xs ys : List Char)
    (h : List.Lex r (x :: xs) (y :: ys)) : r x y ∨ (x = y ∧ List.Lex r xs ys) := by
  cases h with
  | rel h' => exact Or.inl h'
  | cons h' => exact Or.inr ⟨rfl, h'⟩

theorem padDigits_lt (w : Nat) : ∀ n m : Nat, n < 10 ^ w → m < 10 ^ w →
    (List.Lex (fun a b : Char => a < b) (padDigits w n) (padDigits w m) ↔ n < m) := by
  induction w with
  | zero =>
    intro n m hn hm
    have hn0 : n = 0 := by omega
    have hm0 : m = 0 := by omega
    subst hn0; subst hm0
    exact iff_of_false (List.Lex.not_nil_right _ _) (by omega)
  | succ w ih =>
    intro n m hn hm
    have hk : 0 < 10 ^ w := Nat.pos_pow_of_pos w (by omega)
    have hn10 : n < 10 * 10 ^ w := by
      have he : (10:Nat) ^ w * 10 = 10 * 10 ^ w := by ring
      rw [← he, ← pow_succ]; exact hn
    have hm10 : m < 10 * 10 ^ w := by
      have he : (10:Nat) ^ w * 10 = 10 * 10 ^ w := by ring
      rw [← he, ← pow_succ]; exact hm
    have hd1 : n / 10 ^ w < 10 := (Nat.div_lt_iff_lt_mul hk).mpr hn10
    have hd2 : m / 10 ^ w < 10 := (Nat.div_lt_iff_lt_mul hk).mpr hm10
    have hmod1 := Nat.div_add_mod n (10 ^ w)
    have hmod2 := Nat.div_add_mod m (10 ^ w)
    have hnk : n % 10 ^ w < 10 ^ w := Nat.mod_lt _ hk
    have hmk : m % 10 ^ w < 10 ^ w := Nat.mod_lt _ hk
    simp only [padDigits]
    rcases Nat.lt_trichotomy (n / 10 ^ w) (m / 10 ^ w) with hlt | heq | hgt
    · refine iff_of_true (List.Lex.rel ((digitChar_lt_iff _ hd1 _ hd2).mpr hlt)) ?_
      have h1 : n / 10 ^ w + 1 ≤ m / 10 ^ w := hlt
      have hmul : 10 ^ w * (n / 10 ^ w) + 10 ^ w ≤ 10 ^ w * (m / 10 ^ w) := by
        calc 10 ^ w * (n / 10 ^ w) + 10 ^ w = 10 ^ w * (n / 10 ^ w + 1) := by ring
          _ ≤ 10 ^ w * (m / 10 ^ w) := Nat.mul_le_mul_left _ h1
      omega
    · rw [heq]
      rw [List.Lex.cons_iff, ih _ _ hnk hmk]
      have hdiv : 10 ^ w * (n / 10 ^ w) = 10 ^ w * (m / 10 ^ w) := by rw [heq]
      omega
    · refine iff_of_false ?_ ?_
      · intro hlex
        rcases lex_cons_inv _ _ _ _ _ hlex with h' | ⟨h', -⟩
        · exact absurd ((digitChar_lt_iff _ hd1 _ hd2).mp h') (by omega)
        · exact absurd (digitChar_inj _ hd1 _ hd2 h') (by omega)
      · have h1 : m / 10 ^ w + 1 ≤ n / 10 ^ w := hgt
        have hmul : 10 ^ w * (m / 10 ^ w) + 10 ^ w ≤ 10 ^ w * (n / 10 ^ w) := by
          calc 10 ^ w * (m / 10 ^ w) + 10 ^ w = 10 ^ w * (m / 10 ^ w + 1) := by ring
            _ ≤ 10 ^ w * (n / 10 ^ w) := Nat.mul_le_mul_left _ h1
        omega

theorem padDigits_inj (w : Nat) : ∀ n m : Nat, n < 10 ^ w → m < 10 ^ w →
    padDigits w n = padDigits w m → n = m := by
  induction w with
  | zero => intro n m hn hm _; omega
  | succ w ih =>
    intro n m hn hm heq
    have hk : 0 < 10 ^ w := Nat.pos_pow_of_pos w (by omega)
    have hn10 : n < 10 * 10 ^ w := by
      have he : (10:Nat) ^ w * 10 = 10 * 10 ^ w := by ring
      rw [← he, ← pow_succ]; exact hn
    have hm10 : m < 10 * 10 ^ w := by
      have he : (10:Nat) ^ w * 10 = 10 * 10 ^ w := by ring
      rw [← he, ← pow_succ]; exact hm
    have hd1 : n / 10 ^ w < 10 := (Nat.div_lt_iff_lt_mul hk).mpr hn10
    have hd2 : m / 10 ^ w < 10 := (Nat.div_lt_iff_lt_mul hk).mpr hm10
    simp only [padDigits, List.cons.injEq] at heq
    have hdeq : n / 10 ^ w = m / 10 ^ w := digitChar_inj _ hd1 _ hd2 heq.1
    have hmeq : n % 10 ^ w = m % 10 ^ w :=
      ih _ _ (Nat.mod_lt _ hk) (Nat.mod_lt _ hk) heq.2
    have hmod1 := Nat.div_add_mod n (10 ^ w)
    have hmod2 := Nat.div_add_mod m (10 ^ w)
    have hdiv : 10 ^ w * (n / 10 ^ w) = 10 ^ w * (m / 10 ^ w) := by rw [hdeq]
    omega

/-! ## Supporting lemmas: timestamps and backup filenames -/

theorem strftimeTS_length (t : DateTime) : (strftimeTS t).length = 15 := by
  simp only [strftimeTS, List.length_append, List.length_cons, padDigits_length]

theorem strftimeTS_mem (t : DateTime) (c : Char) (hc : c ∈ strftimeTS t) :
    c = '_' ∨ ∃ d, c = digitChar d := by
  simp only [strftimeTS, List.mem_append, List.mem_cons] at hc
  rcases hc with h | h | h | h | h | h | h
  · exact Or.inr (padDigits_mem _ _ _ h)
  · exact Or.inr (padDigits_mem _ _ _ h)
  · exact Or.inr (padDigits_mem _ _ _ h)
  · exact Or.inl h
  · exact Or.inr (padDigits_mem _ _ _ h)
  · exact Or.inr (padDigits_mem _ _ _ h)
  · exact Or.inr (padDigits_mem _ _ _ h)

theorem strftimeTS_ne_dot (t : DateTime) (c : Char) (hc : c ∈ strftimeTS t) : c ≠ '.' := by
  rcases strftimeTS_mem t c hc with h | ⟨d, h⟩
  · rw [h]; decide
  · rw [h]; exact digitChar_ne_dot d

theorem strftimeTS_ne_slash (t : DateTime) (c : Char) (hc : c ∈ strftimeTS t) : c ≠ '/' := by
  rcases strftimeTS_mem t c hc with h | ⟨d, h⟩
  · rw [h]; decide
  · rw [h]; exact digitChar_ne_slash d

theorem strftimeTS_lt (t u : DateTime) (ht : t.Valid) (hu : u.Valid) (hb : t.Before u) :
    List.Lex (fun a b : Char => a < b) (strftimeTS t) (strftimeTS u) := by
  obtain ⟨hty1, hty2, htmo1, htmo2, htd1, htd2, hth, htmi, hts⟩ := ht
  obtain ⟨huy1, huy2, humo1, humo2, hud1, hud2, huh, humi, hus⟩ := hu
  have bty : t.year < 10 ^ 4 := by norm_num; omega
  have buy : u.year < 10 ^ 4 := by norm_num; omega
  have btmo : t.month < 10 ^ 2 := by norm_num; omega
  have bumo : u.month < 10 ^ 2 := by norm_num; omega
  have btd : t.day < 10 ^ 2 := by norm_num; omega
  have bud : u.day < 10 ^ 2 := by norm_num; omega
  have bth : t.hour < 10 ^ 2 := by norm_num; omega
  have buh : u.hour < 10 ^ 2 := by norm_num; omega
  have btmi : t.minute < 10 ^ 2 := by norm_num; omega
  have bumi : u.minute < 10 ^ 2 := by norm_num; omega
  have bts : t.second < 10 ^ 2 := by norm_num; omega
  have bus : u.second < 10 ^ 2 := by norm_num; omega
  unfold strftimeTS
  rcases hb with hy | ⟨hy, hmo | ⟨hmo, hd | ⟨hd, hh | ⟨hh, hmi | ⟨hmi, hs⟩⟩⟩⟩⟩
  · exact lex_append_of_lex _ _ _ ((padDigits_lt 4 _ _ bty buy).mpr hy)
      (by simp [padDigits_length])
  · rw [hy]
    apply lex_append_left
    exact lex_append_of_lex _ _ _ ((padDigits_lt 2 _ _ btmo bumo).mpr hmo)
      (by simp [padDigits_length])
  · rw [hy, hmo]
    apply lex_append_left
    apply lex_append_left
    exact lex_append_of_lex _ _ _ ((padDigits_lt 2 _ _ btd bud).mpr hd)
      (by simp [padDigits_length])
  · rw [hy, hmo, hd]
    apply lex_append_left
    apply lex_append_left
    apply lex_append_left
    apply List.Lex.cons
    exact lex_append_of_lex _ _ _ ((padDigits_lt 2 _ _ bth buh).mpr hh)
      (by simp [padDigits_length])
  · rw [hy, hmo, hd, hh]
    apply lex_append_left
    apply lex_append_left
    apply lex_append_left
    apply List.Lex.cons
    apply lex_append_left
    exact lex_append_of_lex _ _ _ ((padDigits_lt 2 _ _ btmi bumi).mpr hmi)
      (by simp [padDigits_length])
  · rw [hy, hmo, hd, hh, hmi]
    apply lex_append_left
    apply lex_append_left
    apply lex_append_left
    apply List.Lex.cons
    apply lex_append_left
    apply lex_append_left
    exact (padDigits_lt 2 _ _ bts bus).mpr hs

theorem strftimeTS_inj (t u : DateTime) (ht : t.Valid) (hu : u.Valid)
    (h : strftimeTS t = strftimeTS u) : t = u := by
  obtain ⟨hty1, hty2, htmo1, htmo2, htd1, htd2, hth, htmi, hts⟩ := ht
  obtain ⟨huy1, huy2, humo1, humo2, hud1, hud2, huh, humi, hus⟩ := hu
  have bty : t.year < 10 ^ 4 := by norm_num; omega
  have buy : u.year < 10 ^ 4 := by norm_num; omega
  have btmo : t.month < 10 ^ 2 := by norm_num; omega
  have bumo : u.month < 10 ^ 2 := by norm_num; omega
  have btd : t.day < 10 ^ 2 := by norm_num; omega
  have bud : u.day < 10 ^ 2 := by norm_num; omega
  have bth : t.hour < 10 ^ 2 := by norm_num; omega
  have buh : u.hour < 10 ^ 2 := by norm_num; omega
  have btmi : t.minute < 10 ^ 2 := by norm_num; omega
  have bumi : u.minute < 10 ^ 2 := by norm_num; omega
  have bts : t.second < 10 ^ 2 := by norm_num; omega
  have bus : u.second < 10 ^ 2 := by norm_num; omega
  unfold strftimeTS at h
  obtain ⟨h1, h⟩ := List.append_inj h (by simp [padDigits_length])
  obtain ⟨h2, h⟩ := List.append_inj h (by simp [padDigits_length])
  obtain ⟨h3, h⟩ := List.append_inj h (by simp [padDigits_length])
  rw [List.cons.injEq] at h
  obtain ⟨-, h⟩ := h
  obtain ⟨h4, h⟩ := List.append_inj h (by simp [padDigits_length])
  obtain ⟨h5, h6⟩ := List.append_inj h (by simp [padDigits_length])
  have e1 := padDigits_inj 4 _ _ bty buy h1
  have e2 := padDigits_inj 2 _ _ btmo bumo h2
  have e3 := padDigits_inj 2 _ _ btd bud h3
  have e4 := padDigits_inj 2 _ _ bth buh h4
  have e5 := padDigits_inj 2 _ _ btmi bumi h5
  have e6 := padDigits_inj 2 _ _ bts bus h6
  cases t; cases u
  congr 1

theorem backupFilename_lt (t u : DateTime) (ht : t.Valid) (hu : u.Valid) (hb : t.Before u) :
    backupFilename t < backupFilename u := by
  rw [String.lt_iff_toList_lt]
  show List.Lex _ ("services_".data ++ (strftimeTS t ++ ".yaml".data))
    ("services_".data ++ (strftimeTS u ++ ".yaml".data))
  apply lex_append_left
  exact lex_append_of_lex _ _ _ (strftimeTS_lt t u ht hu hb)
    (by rw [strftimeTS_length, strftimeTS_length])

theorem backupFilename_inj (t u : DateTime) (ht : t.Valid) (hu : u.Valid)
    (h : backupFilename t = backupFilename u) : t = u := by
  have hd : "services_".data ++ (strftimeTS t ++ ".yaml".data) =
      "services_".data ++ (strftimeTS u ++ ".yaml".data) := congrArg String.data h
  obtain ⟨-, hd2⟩ := List.append_inj hd rfl
  obtain ⟨hts, -⟩ := List.append_inj hd2 (by rw [strftimeTS_length, strftimeTS_length])
  exact strftimeTS_inj t u ht hu hts

theorem backupFilename_ne (t u : DateTime) (ht : t.Valid) (hu : u.Valid) (h : t ≠ u) :
    backupFilename t ≠ backupFilename u :=
  fun he => h (backupFilename_inj t u ht hu he)


/-! ## Supporting lemmas: substring and suffix tests -/

theorem containsSubList_singleton_false (c0 : Char) (l : List Char) :
    containsSubList [c0] l = false ↔ ∀ c ∈ l, c ≠ c0 := by
  induction l with
  | nil => simp [containsSubList]
  | cons c rest ih =>
    show (([c0].isPrefixOf (c :: rest)) || containsSubList [c0] rest) = false ↔ _
    have hpre : [c0].isPrefixOf (c :: rest) = (c0 == c) := by
      simp [List.isPrefixOf]
    rw [hpre, Bool.or_eq_false_iff, ih]
    constructor
    · rintro ⟨h1, h2⟩ x hx
      rcases List.mem_cons.mp hx with rfl | hx2
      · exact fun he => by simp [he] at h1
      · exact h2 x hx2
    · intro hall
      refine ⟨?_, fun x hx => hall x (List.mem_cons_of_mem _ hx)⟩
      have hc := hall c (List.mem_cons_self _ _)
      exact beq_eq_false_iff_ne.mpr (fun he => hc he.symm)

theorem containsSubList_append_headFree (c0 : Char) (nd l m : List Char)
    (hl : ∀ c ∈ l, c ≠ c0) :
    containsSubList (c0 :: nd) (l ++ m) = containsSubList (c0 :: nd) m := by
  induction l with
  | nil => rfl
  | cons c rest ih =>
    have hc : c0 ≠ c := fun he => (hl c (List.mem_cons_self _ _)) he.symm
    have hpre : (c0 :: nd).isPrefixOf (c :: (rest ++ m)) = false := by
      rw [List.isPrefixOf_cons₂, beq_eq_false_iff_ne.mpr hc, Bool.false_and]
    show ((c0 :: nd).isPrefixOf (c :: (rest ++ m)) || _) = _
    rw [hpre, Bool.false_or]
    exact ih (fun x hx => hl x (List.mem_cons_of_mem _ hx))

theorem isSuffixOf_append (m l : List Char) : m.isSuffixOf (l ++ m) = true := by
  rw [List.isSuffixOf_iff_suffix]
  exact List.suffix_append l m

theorem services_data_ne_dot : ∀ c ∈ "services_".data, c ≠ '.' := by decide

theorem services_data_ne_slash : ∀ c ∈ "services_".data, c ≠ '/' := by decide

theorem backupFilename_no_dotdot (t : DateTime) :
    pyIn ".." (backupFilename t) = false := by
  have hfree : ∀ c ∈ "services_".data ++ strftimeTS t, c ≠ '.' := by
    intro c hc
    rcases List.mem_append.mp hc with h | h
    · exact services_data_ne_dot c h
    · exact strftimeTS_ne_dot t c h
  show containsSubList ('.' :: ['.']) ("services_".data ++ (strftimeTS t ++ ".yaml".data)) = false
  rw [← List.append_assoc]
  rw [containsSubList_append_headFree '.' ['.'] _ _ hfree]
  decide

theorem backupFilename_no_slash (t : DateTime) :
    pyIn "/" (backupFilename t) = false := by
  have hfree : ∀ c ∈ "services_".data ++ strftimeTS t, c ≠ '/' := by
    intro c hc
    rcases List.mem_append.mp hc with h | h
    · exact services_data_ne_slash c h
    · exact strftimeTS_ne_slash t c h
  show containsSubList ('/' :: []) ("services_".data ++ (strftimeTS t ++ ".yaml".data)) = false
  rw [← List.append_assoc]
  rw [containsSubList_append_headFree '/' [] _ _ hfree]
  decide

theorem backupFilename_endsWith (t : DateTime) :
    pyEndsWith (backupFilename t) ".yaml" = true := by
  show (".yaml".data).isSuffixOf ("services_".data ++ (strftimeTS t ++ ".yaml".data)) = true
  rw [← List.append_assoc]
  exact isSuffixOf_append _ _

theorem backupFilename_length (t : DateTime) : (backupFilename t).data.length = 29 := by
  show ("services_".data ++ (strftimeTS t ++ ".yaml".data)).length = 29
  simp [strftimeTS_length]


/-! ## Supporting lemmas: the backup directory as an association list -/

theorem lookupB_name_eq (l : List BEntry) (n : String) (e : BEntry)
    (h : lookupB l n = some e) : e.name = n := by
  have h' : List.find? (fun x => x.name == n) l = some e := h
  have hb := List.find?_some h'
  exact eq_of_beq hb

theorem lookupB_upsertB_self (l : List BEntry) (n c : String) (m : Nat) :
    lookupB (upsertB l n c m) n = some ⟨n, c, m⟩ := by
  induction l with
  | nil => simp [upsertB, lookupB, List.find?]
  | cons e rest ih =>
    by_cases he : (e.name == n) = true
    · simp [upsertB, he, lookupB, List.find?]
    · rw [upsertB, if_neg (by simp [he])]
      rw [lookupB, List.find?]
      rw [Bool.eq_false_iff.mpr he]
      exact ih

theorem lookupB_upsertB_ne (l : List BEntry) (n n' c : String) (m : Nat) (hne : n' ≠ n) :
    lookupB (upsertB l n c m) n' = lookupB l n' := by
  have hnn : (n == n') = false := beq_eq_false_iff_ne.mpr (fun h => hne h.symm)
  induction l with
  | nil => simp [upsertB, lookupB, List.find?, hnn]
  | cons e rest ih =>
    by_cases he : (e.name == n) = true
    · have hen : e.name = n := eq_of_beq he
      rw [upsertB, if_pos he]
      rw [lookupB, List.find?, lookupB, List.find?]
      simp only [hen, hnn]
    · rw [upsertB, if_neg (by simp [he])]
      rw [lookupB, List.find?, lookupB, List.find?]
      cases hh : (e.name == n') with
      | true => rfl
      | false => exact ih

theorem upsertB_length (l : List BEntry) (n c : String) (m : Nat) :
    (upsertB l n c m).length ≤ l.length + 1 := by
  induction l with
  | nil => simp [upsertB]
  | cons e rest ih =>
    by_cases he : (e.name == n) = true
    · rw [upsertB, if_pos he]; simp
    · rw [upsertB, if_neg (by simp [he])]
      simp only [List.length_cons]
      omega

/-! ## Supporting lemmas: change detection -/

theorem content_changed_hash_ne (X c : String) (bk : List BEntry)
    (h : get_file_hash X ≠ get_file_hash c) :
    content_changed false X ⟨some c, bk⟩ = true := by
  simp [content_changed, h]

theorem content_changed_self (X : String) (bk : List BEntry) :
    content_changed false X ⟨some X, bk⟩ = false := by
  simp [content_changed]

theorem content_changed_none (rf : Bool) (X : String) (bk : List BEntry) :
    content_changed rf X ⟨none, bk⟩ = true := by
  simp [content_changed]

/-! ## Supporting lemmas: the Python string comparison agrees with the Lean order -/

theorem charListLe_iff (a : List Char) : ∀ b : List Char,
    (charListLe a b = true ↔ ¬ List.Lex (fun x y : Char => x < y) b a) := by
  induction a with
  | nil =>
    intro b
    exact iff_of_true (by cases b <;> rfl) (List.Lex.not_nil_right _ _)
  | cons x xs ih =>
    intro b
    cases b with
    | nil =>
      refine iff_of_false (by simp [charListLe]) (fun h => h List.Lex.nil)
    | cons y ys =>
      show (if x.toNat < y.toNat then true
        else if y.toNat < x.toNat then false else charListLe xs ys) = true ↔ _
      rcases Nat.lt_trichotomy x.toNat y.toNat with hlt | heq | hgt
      · rw [if_pos hlt]
        refine iff_of_true rfl (fun h => ?_)
        rcases lex_cons_inv _ _ _ _ _ h with hr | ⟨he, -⟩
        · have : y.toNat < x.toNat := hr
          omega
        · have : y.toNat = x.toNat := congrArg Char.toNat he
          omega
      · have hxy : x = y := Char.ext (UInt32.ext heq)
        subst hxy
        rw [if_neg (by omega), if_neg (by omega)]
        rw [List.Lex.cons_iff]
        exact ih ys
      · rw [if_neg (by omega), if_pos hgt]
        exact iff_of_false (by simp) (fun hn => hn (List.Lex.rel (show y < x from hgt)))

theorem pyStrLe_iff_le (a b : String) : pyStrLe a b = true ↔ a ≤ b := by
  have hle : (a ≤ b) ↔ ¬ List.Lex (fun x y : Char => x < y) b.data a.data := by
    rw [String.le_iff_toList_le, ← not_lt]
    exact Iff.rfl
  rw [hle]
  exact charListLe_iff a.data b.data

theorem pyLeR_iff_le (a b : String) : pyLeR a b ↔ a ≤ b := pyStrLe_iff_le a b

/-! ## Supporting lemmas: path splitting and lexical resolution -/

theorem splitSlash_no_slash (l : List Char) (h : ∀ c ∈ l, c ≠ '/') :
    splitSlash l = [l] := by
  induction l with
  | nil => rfl
  | cons c rest ih =>
    have hc : c ≠ '/' := h c (List.mem_cons_self _ _)
    rw [splitSlash, if_neg hc, ih (fun x hx => h x (List.mem_cons_of_mem _ hx))]

theorem staysWithin_of_checkPasses (f : String)
    (h2 : pyIn "/" f = false) (h3 : pyEndsWith f ".yaml" = true) :
    staysWithinBackupDir f = true := by
  have hslash : ∀ c ∈ f.data, c ≠ '/' :=
    (containsSubList_singleton_false '/' f.data).mp h2
  have hsplit : splitSlash f.data = [f.data] := splitSlash_no_slash _ hslash
  obtain ⟨p, hp⟩ := List.isSuffixOf_iff_suffix.mp h3
  have hlen : 5 ≤ f.data.length := by rw [← hp]; simp
  unfold staysWithinBackupDir
  rw [hsplit]
  have hne1 : ¬ (f.data = [] ∨ f.data = ['.']) := by
    rintro (h | h) <;> (rw [h] at hlen; simp at hlen)
  have hne2 : ¬ (f.data = ['.', '.']) := by
    intro h; rw [h] at hlen; simp at hlen
  rw [segsDepth, if_neg hne1, if_neg hne2]
  rfl


/-! ## Supporting lemmas: the backups listing -/

theorem lookupB_mem (l : List BEntry) (hnd : (l.map (fun e => e.name)).Nodup) :
    ∀ e ∈ l, lookupB l e.name = some e := by
  induction l with
  | nil => intro e he; simp at he
  | cons a rest ih =>
    rw [List.map_cons] at hnd
    have hna : a.name ∉ rest.map (fun e => e.name) := (List.nodup_cons.mp hnd).1
    have hnd2 : (rest.map (fun e => e.name)).Nodup := (List.nodup_cons.mp hnd).2
    intro e he
    rcases List.mem_cons.mp he with rfl | he2
    · show List.find? (fun x => x.name == e.name) (e :: rest) = some e
      exact List.find?_cons_of_pos _ (by simp)
    · have hne : a.name ≠ e.name := fun h => hna (h ▸ List.mem_map_of_mem _ he2)
      show List.find? (fun x => x.name == e.name) (a :: rest) = some e
      rw [List.find?_cons_of_neg _ (by simp [hne])]
      exact ih hnd2 e he2

theorem list_backups_names (s : St) :
    (list_backups s).map (fun b => b.filename) =
      ((List.insertionSort pyLeR (s.backups.map (fun e => e.name))).reverse).filter
        (fun n => pyEndsWith n ".yaml" && (lookupB s.backups n).isSome) := by
  unfold list_backups
  generalize (List.insertionSort pyLeR (s.backups.map (fun e => e.name))).reverse = ns
  induction ns with
  | nil => rfl
  | cons n rest ih =>
    by_cases he : pyEndsWith n ".yaml" = true
    · cases hl : lookupB s.backups n with
      | none => simp [List.filterMap_cons, List.filter_cons, he, hl, ih]
      | some e =>
        have hname : e.name = n := lookupB_name_eq _ _ _ hl
        simp [List.filterMap_cons, List.filter_cons, he, hl, ih, hname]
    · have he' : pyEndsWith n ".yaml" = false := Bool.eq_false_iff.mpr he
      simp [List.filterMap_cons, List.filter_cons, he', ih]

theorem list_backups_sorted (s : St) :
    List.Pairwise (fun a b : String => b ≤ a)
      ((list_backups s).map (fun b => b.filename)) := by
  rw [list_backups_names]
  apply List.Pairwise.filter
  haveI ht : IsTotal String pyLeR :=
    ⟨fun a b => by rw [pyLeR_iff_le, pyLeR_iff_le]; exact le_total a b⟩
  haveI htr : IsTrans String pyLeR :=
    ⟨fun a b c hab hbc => by
      rw [pyLeR_iff_le] at hab hbc ⊢
      exact le_trans hab hbc⟩
  have hs : List.Sorted pyLeR
      (List.insertionSort pyLeR (s.backups.map (fun e => e.name))) :=
    List.sorted_insertionSort pyLeR _
  have hp : List.Pairwise (fun a b : String => pyLeR b a)
      ((List.insertionSort pyLeR (s.backups.map (fun e => e.name))).reverse) := by
    rw [List.pairwise_reverse]
    exact hs
  exact hp.imp (fun hab => (pyLeR_iff_le _ _).mp hab)

theorem filterMap_lookup (L : List BEntry) : ∀ (m : List BEntry),
    (∀ e ∈ m, lookupB L e.name = some e) →
    (m.map (fun e => e.name)).filterMap (fun n =>
      if pyEndsWith n ".yaml" then
        match lookupB L n with
        | some e => some (⟨e.name, (utf8Bytes e.content).length, e.mtime⟩ : BackupInfo)
        | none => none
      else none) =
    (m.filter (fun e => pyEndsWith e.name ".yaml")).map
      (fun e => (⟨e.name, (utf8Bytes e.content).length, e.mtime⟩ : BackupInfo)) := by
  intro m
  induction m with
  | nil => intro _; rfl
  | cons e rest ih =>
    intro hm
    have he := hm e (List.mem_cons_self _ _)
    have ihr := ih (fun x hx => hm x (List.mem_cons_of_mem _ hx))
    by_cases hy : pyEndsWith e.name ".yaml" = true
    · simp [List.filterMap_cons, List.filter_cons, hy, he, ihr]
    · have hy' : pyEndsWith e.name ".yaml" = false := Bool.eq_false_iff.mpr hy
      simp [List.filterMap_cons, List.filter_cons, hy', ihr]

theorem list_backups_perm (s : St)
    (hnd : (s.backups.map (fun e => e.name)).Nodup) :
    (list_backups s).Perm
      ((s.backups.filter (fun e => pyEndsWith e.name ".yaml")).map
        (fun e => (⟨e.name, (utf8Bytes e.content).length, e.mtime⟩ : BackupInfo))) := by
  unfold list_backups
  have hperm :
      ((List.insertionSort pyLeR (s.backups.map (fun e => e.name))).reverse).Perm
        (s.backups.map (fun e => e.name)) :=
    (List.reverse_perm _).trans (List.perm_insertionSort pyLeR _)
  refine (List.Perm.filterMap _ hperm).trans ?_
  rw [filterMap_lookup s.backups s.backups (lookupB_mem s.backups hnd)]


/-! ## Claim theorems -/

/-- Claim C1: for every candidate text failing YAML validation, save
returns the rejected result carrying the parser reason, and neither the
canonical document nor the backup directory is modified. -/
theorem C1_invalid_save_rejected (parse : String → ParseOutcome) (now : DateTime)
    (mt : Nat) (readFail copyFail : Bool) (writeFail : Option String)
    (content : String) (s : St)
    (h : (validate_yaml parse content).1 = false) :
    save parse now mt readFail copyFail writeFail content s =
      (.rejected ("YAML syntax error: " ++ (validate_yaml parse content).2.getD ""), s) := by
  simp [save, h]

/-- Witness for C1 at a concrete invalid document. -/
theorem C1_invalid_save_rejected_witness :
    (validate_yaml (fun _ => ParseOutcome.yamlError "flow node error") "\x7binvalid: [").1
      = false ∧
    save (fun _ => ParseOutcome.yamlError "flow node error") ⟨2025, 1, 1, 0, 0, 0⟩ 0
        false false none "\x7binvalid: [" ⟨some "a", []⟩ =
      (.rejected ("YAML syntax error: flow node error"), ⟨some "a", []⟩) := by
  refine ⟨rfl, ?_⟩
  have h := C1_invalid_save_rejected (fun _ => ParseOutcome.yamlError "flow node error")
    ⟨2025, 1, 1, 0, 0, 0⟩ 0 false false none "\x7binvalid: [" ⟨some "a", []⟩ rfl
  simpa using h

/-- Claim C4: every filename containing the parent-directory marker,
containing a path separator, or not ending in the .yaml extension is
rejected by restore before any backup lookup, with the state untouched. -/
theorem C4_unsafe_filename_rejected (now : DateTime) (mt : Nat) (copyFail : Bool)
    (readFail : Option String) (f : String) (s : St)
    (h : pyIn ".." f = true ∨ pyIn "/" f = true ∨ pyEndsWith f ".yaml" = false) :
    restore_backup now mt copyFail readFail f s = (.invalidFilename, s) := by
  have hc : (pyIn ".." f || pyIn "/" f || !(pyEndsWith f ".yaml")) = true := by
    rcases h with h | h | h <;> simp [h]
  simp [restore_backup, hc]

/-- Witness for C4 at the traversal filename of the spec example. -/
theorem C4_unsafe_filename_rejected_witness :
    pyIn ".." "../../etc/passwd" = true ∧
    restore_backup ⟨2025, 1, 1, 0, 0, 0⟩ 0 false none "../../etc/passwd"
        ⟨some "a", []⟩ = (.invalidFilename, ⟨some "a", []⟩) :=
  ⟨by decide, C4_unsafe_filename_rejected ⟨2025, 1, 1, 0, 0, 0⟩ 0 false none
    "../../etc/passwd" ⟨some "a", []⟩ (Or.inl (by decide))⟩

/-- Claim C5 (amended): there is no separate resolved-path re-validation in
the code, but every filename whose lexically resolved path would escape the
backup directory is rejected by the line 260 filename check itself, as an
invalid-filename rejection (not as NotFound), with the state untouched. -/
theorem C5_escaping_path_rejected (now : DateTime) (mt : Nat) (copyFail : Bool)
    (readFail : Option String) (f : String) (s : St)
    (h : staysWithinBackupDir f = false) :
    restore_backup now mt copyFail readFail f s = (.invalidFilename, s) := by
  have hc : (pyIn ".." f || pyIn "/" f || !(pyEndsWith f ".yaml")) = true := by
    by_contra hcon
    have hcon' : (pyIn ".." f || pyIn "/" f || !(pyEndsWith f ".yaml")) = false :=
      Bool.eq_false_iff.mpr hcon
    simp only [Bool.or_eq_false_iff, Bool.not_eq_false'] at hcon'
    have := staysWithin_of_checkPasses f hcon'.1.2 hcon'.2
    rw [this] at h
    exact absurd h (by simp)
  simp [restore_backup, hc]

/-- Counterexample to C5 as stated: a filename whose resolved path escapes
the backup directory is rejected as an invalid-filename answer, not as the
NotFound answer the claim names. -/
theorem C5_escaping_path_rejected_cex :
    restore_backup ⟨2025, 1, 1, 0, 0, 0⟩ 0 false none "../x.yaml" ⟨some "a", []⟩ =
      (.invalidFilename, ⟨some "a", []⟩) ∧
    staysWithinBackupDir "../x.yaml" = false ∧
    RestoreResult.invalidFilename ≠ RestoreResult.notFound := by
  exact ⟨by decide, by decide, by decide⟩

/-- Witness for the amended C5 at a concrete escaping filename. -/
theorem C5_escaping_path_rejected_witness :
    staysWithinBackupDir "../evil.yaml" = false ∧
    restore_backup ⟨2025, 1, 1, 0, 0, 0⟩ 0 false none "../evil.yaml" ⟨some "a", []⟩ =
      (.invalidFilename, ⟨some "a", []⟩) :=
  ⟨by decide, C5_escaping_path_rejected ⟨2025, 1, 1, 0, 0, 0⟩ 0 false none
    "../evil.yaml" ⟨some "a", []⟩ (by decide)⟩

/-- Claim C6: when the canonical document exists and the content changed,
a failing backup creation does not abort the save: the overwrite proceeds
and the result is Saved with no backup filename, the failure not being
separately flagged. -/
theorem C6_backup_failure_save_proceeds (parse : String → ParseOutcome)
    (now : DateTime) (mt : Nat) (X c : String) (bk : List BEntry)
    (hv : (validate_yaml parse X).1 = true)
    (hch : content_changed false X ⟨some c, bk⟩ = true) :
    save parse now mt false true none X ⟨some c, bk⟩ = (.saved none, ⟨some X, bk⟩) := by
  simp [save, hv, hch, create_backup, write_yaml_file]

/-- Witness for C6 at concrete contents. -/
theorem C6_backup_failure_save_proceeds_witness :
    save (fun _ => ParseOutcome.ok) ⟨2025, 1, 1, 0, 0, 0⟩ 0 false true none "b"
        ⟨some "a", []⟩ = (.saved none, ⟨some "b", []⟩) :=
  C6_backup_failure_save_proceeds (fun _ => ParseOutcome.ok) ⟨2025, 1, 1, 0, 0, 0⟩ 0
    "b" "a" [] rfl (by decide)

/-- Claim C9: restore rejects every filename containing the two-character
dotdot substring anywhere, even where it is not a parent-directory
segment, so some filenames satisfying the spec safety contract are
rejected before lookup. -/
theorem C9_dotdot_substring_rejected :
    (∀ (now : DateTime) (mt : Nat) (copyFail : Bool) (readFail : Option String)
      (f : String) (s : St), pyIn ".." f = true →
      restore_backup now mt copyFail readFail f s = (.invalidFilename, s)) ∧
    specSafeFilename "a..b.yaml" = true ∧ pyIn ".." "a..b.yaml" = true := by
  refine ⟨?_, by decide, by decide⟩
  intro now mt cf rf f s h
  have hc : (pyIn ".." f || pyIn "/" f || !(pyEndsWith f ".yaml")) = true := by simp [h]
  simp [restore_backup, hc]

/-- Witness for C9 at the spec-safe but rejected filename. -/
theorem C9_dotdot_substring_rejected_witness :
    restore_backup ⟨2025, 1, 1, 0, 0, 0⟩ 0 false none "a..b.yaml" ⟨some "x", []⟩ =
      (.invalidFilename, ⟨some "x", []⟩) ∧
    specSafeFilename "a..b.yaml" = true :=
  ⟨C9_dotdot_substring_rejected.1 ⟨2025, 1, 1, 0, 0, 0⟩ 0 false none "a..b.yaml"
    ⟨some "x", []⟩ (by decide), C9_dotdot_substring_rejected.2.1⟩

/-- Claim C10: when the canonical document exists but reading it fails
during the change comparison, the comparison reports changed and save
proceeds to the backup and the write instead of returning NoOp or an
error. -/
theorem C10_read_failure_treated_changed (parse : String → ParseOutcome)
    (now : DateTime) (mt : Nat) (X c : String) (bk : List BEntry)
    (hv : (validate_yaml parse X).1 = true) :
    content_changed true X ⟨some c, bk⟩ = true ∧
    save parse now mt true false none X ⟨some c, bk⟩ =
      (.saved (some (backupFilename now)),
        ⟨some X, upsertB bk (backupFilename now) c mt⟩) := by
  constructor
  · simp [content_changed]
  · simp [save, hv, content_changed, create_backup, write_yaml_file]

/-- Witness for C10: even byte-identical content is written when the
comparison read fails. -/
theorem C10_read_failure_treated_changed_witness :
    save (fun _ => ParseOutcome.ok) ⟨2025, 1, 1, 0, 0, 0⟩ 5 true false none "a"
        ⟨some "a", []⟩ =
      (.saved (some (backupFilename ⟨2025, 1, 1, 0, 0, 0⟩)),
        ⟨some "a", upsertB [] (backupFilename ⟨2025, 1, 1, 0, 0, 0⟩) "a" 5⟩) :=
  (C10_read_failure_treated_changed (fun _ => ParseOutcome.ok) ⟨2025, 1, 1, 0, 0, 0⟩ 5
    "a" "a" [] rfl).2


/-- Claim C7: the change comparison returns true when no current document
exists, and otherwise (with the read succeeding) returns true exactly when
the SHA-256 fingerprints of the UTF-8 encodings differ; the comparison is
byte-exact, the spec example of a missing trailing newline counting as
changed. -/
theorem C7_content_changed_spec (X : String) (s : St) :
    (s.canonical = none → content_changed false X s = true) ∧
    (∀ c, s.canonical = some c →
      (content_changed false X s = true ↔ get_file_hash X ≠ get_file_hash c)) ∧
    get_file_hash "a: 1\n" ≠ get_file_hash "a: 1" ∧
    content_changed false "a: 1" ⟨some "a: 1\n", []⟩ = true := by
  obtain ⟨can, bk⟩ := s
  refine ⟨?_, ?_, by decide, by decide⟩
  · intro h
    have h' : can = none := h
    subst h'
    simp [content_changed]
  · intro c h
    have h' : can = some c := h
    subst h'
    simp [content_changed, bne_iff_ne]

/-- Witness for C7 at concrete states. -/
theorem C7_content_changed_spec_witness :
    content_changed false "x" ⟨none, []⟩ = true ∧
    (content_changed false "x" ⟨some "y", []⟩ = true ↔
      get_file_hash "x" ≠ get_file_hash "y") :=
  ⟨(C7_content_changed_spec "x" ⟨none, []⟩).1 rfl,
   (C7_content_changed_spec "x" ⟨some "y", []⟩).2.1 "y" rfl⟩

/-- Claim C2 (amended): for a valid text X, when X differs from the current
canonical content (or none exists), save yields Saved, writes X, adds at
most one backup file, and an immediately repeated save of the identical
bytes yields NoOp touching nothing; when X is already current, both saves
yield NoOp touching nothing, so repeated saves of already-current content
never grow the backup directory. -/
theorem C2_save_idempotent (parse : String → ParseOutcome) (t1 : DateTime) (m1 : Nat)
    (t2 : DateTime) (m2 : Nat) (X : String) (s : St)
    (hv : (validate_yaml parse X).1 = true) :
    (content_changed false X s = true →
      (∃ b, (save parse t1 m1 false false none X s).1 = .saved b) ∧
      (save parse t1 m1 false false none X s).2.canonical = some X ∧
      (save parse t1 m1 false false none X s).2.backups.length ≤ s.backups.length + 1 ∧
      save parse t2 m2 false false none X (save parse t1 m1 false false none X s).2 =
        (.noOp, (save parse t1 m1 false false none X s).2)) ∧
    (content_changed false X s = false →
      save parse t1 m1 false false none X s = (.noOp, s) ∧
      save parse t2 m2 false false none X s = (.noOp, s)) := by
  obtain ⟨can, bk⟩ := s
  constructor
  · intro hch
    cases can with
    | none =>
      have h1 : save parse t1 m1 false false none X ⟨none, bk⟩ =
          (.saved none, ⟨some X, bk⟩) := by
        simp [save, hv, hch, create_backup, write_yaml_file]
      rw [h1]
      refine ⟨⟨none, rfl⟩, rfl, by simp, ?_⟩
      have hc2 : content_changed false X ⟨some X, bk⟩ = false := content_changed_self X bk
      simp [save, hv, hc2]
    | some c =>
      have h1 : save parse t1 m1 false false none X ⟨some c, bk⟩ =
          (.saved (some (backupFilename t1)),
            ⟨some X, upsertB bk (backupFilename t1) c m1⟩) := by
        simp [save, hv, hch, create_backup, write_yaml_file]
      rw [h1]
      refine ⟨⟨_, rfl⟩, rfl, ?_, ?_⟩
      · simpa using upsertB_length bk (backupFilename t1) c m1
      · have hc2 : content_changed false X
            ⟨some X, upsertB bk (backupFilename t1) c m1⟩ = false :=
          content_changed_self X _
        simp [save, hv, hc2]
  · intro hch
    constructor <;> simp [save, hv, hch]

/-- Counterexample to C2 as stated: saving content byte-identical to the
current canonical document yields NoOp, not the Saved the claim promises
for the first of the two calls. -/
theorem C2_save_idempotent_cex :
    (save (fun _ => ParseOutcome.ok) ⟨2025, 1, 1, 0, 0, 0⟩ 0 false false none "a"
      ⟨some "a", []⟩).1 = SaveResult.noOp ∧
    SaveResult.noOp ≠
      SaveResult.saved (some (backupFilename ⟨2025, 1, 1, 0, 0, 0⟩)) := by
  exact ⟨by decide, by decide⟩

/-- Witness for the amended C2 at concrete contents. -/
theorem C2_save_idempotent_witness :
    (∃ b, (save (fun _ => ParseOutcome.ok) ⟨2025, 1, 1, 0, 0, 0⟩ 0 false false none "b"
      ⟨some "a", []⟩).1 = .saved b) ∧
    save (fun _ => ParseOutcome.ok) ⟨2025, 1, 1, 0, 0, 1⟩ 1 false false none "b"
        (save (fun _ => ParseOutcome.ok) ⟨2025, 1, 1, 0, 0, 0⟩ 0 false false none "b"
          ⟨some "a", []⟩).2 =
      (.noOp, (save (fun _ => ParseOutcome.ok) ⟨2025, 1, 1, 0, 0, 0⟩ 0 false false none
        "b" ⟨some "a", []⟩).2) := by
  have h := (C2_save_idempotent (fun _ => ParseOutcome.ok) ⟨2025, 1, 1, 0, 0, 0⟩ 0
    ⟨2025, 1, 1, 0, 0, 1⟩ 1 "b" ⟨some "a", []⟩ rfl).1 (by decide)
  exact ⟨h.1, h.2.2.2⟩

/-- Claim C3: from canonical content C1, saving changed valid content C2
creates a backup holding exactly C1; restoring that backup puts C1 back as
the canonical document, creates a new backup holding C2 (the two backup
names being distinct seconds), leaves the first backup intact, and a
subsequent load returns exactly C1. -/
theorem C3_restore_round_trip (parse : String → ParseOutcome) (t1 t2 : DateTime)
    (m1 m2 : Nat) (C1 C2 : String) (bk : List BEntry)
    (hv : (validate_yaml parse C2).1 = true)
    (hch : get_file_hash C2 ≠ get_file_hash C1)
    (ht1 : t1.Valid) (ht2 : t2.Valid) (hne : t1 ≠ t2) :
    save parse t1 m1 false false none C2 ⟨some C1, bk⟩ =
      (.saved (some (backupFilename t1)),
        ⟨some C2, upsertB bk (backupFilename t1) C1 m1⟩) ∧
    lookupB (upsertB bk (backupFilename t1) C1 m1) (backupFilename t1) =
      some ⟨backupFilename t1, C1, m1⟩ ∧
    restore_backup t2 m2 false none (backupFilename t1)
        ⟨some C2, upsertB bk (backupFilename t1) C1 m1⟩ =
      (.restored C1 (some (backupFilename t2)),
        ⟨some C1, upsertB (upsertB bk (backupFilename t1) C1 m1)
          (backupFilename t2) C2 m2⟩) ∧
    lookupB (upsertB (upsertB bk (backupFilename t1) C1 m1) (backupFilename t2) C2 m2)
        (backupFilename t2) = some ⟨backupFilename t2, C2, m2⟩ ∧
    lookupB (upsertB (upsertB bk (backupFilename t1) C1 m1) (backupFilename t2) C2 m2)
        (backupFilename t1) = some ⟨backupFilename t1, C1, m1⟩ ∧
    read_yaml_file none
        ⟨some C1, upsertB (upsertB bk (backupFilename t1) C1 m1)
          (backupFilename t2) C2 m2⟩ =
      (C1, ⟨some C1, upsertB (upsertB bk (backupFilename t1) C1 m1)
        (backupFilename t2) C2 m2⟩) := by
  have hB1ne : backupFilename t1 ≠ backupFilename t2 := backupFilename_ne t1 t2 ht1 ht2 hne
  have hchb : content_changed false C2 ⟨some C1, bk⟩ = true :=
    content_changed_hash_ne _ _ _ hch
  have hlk1 : lookupB (upsertB bk (backupFilename t1) C1 m1) (backupFilename t1) =
      some ⟨backupFilename t1, C1, m1⟩ := lookupB_upsertB_self _ _ _ _
  have hlk2 : lookupB (upsertB (upsertB bk (backupFilename t1) C1 m1)
      (backupFilename t2) C2 m2) (backupFilename t1) =
      some ⟨backupFilename t1, C1, m1⟩ := by
    rw [lookupB_upsertB_ne _ _ _ _ _ hB1ne]
    exact hlk1
  have hcheck : (pyIn ".." (backupFilename t1) || pyIn "/" (backupFilename t1) ||
      !(pyEndsWith (backupFilename t1) ".yaml")) = false := by
    simp [backupFilename_no_dotdot t1, backupFilename_no_slash t1,
      backupFilename_endsWith t1]
  refine ⟨?_, hlk1, ?_, lookupB_upsertB_self _ _ _ _, hlk2, by simp [read_yaml_file]⟩
  · simp [save, hv, hchb, create_backup, write_yaml_file]
  · simp [restore_backup, hcheck, hlk1, create_backup, hlk2, read_yaml_file]

/-- Witness for C3 at concrete contents and two distinct seconds. -/
theorem C3_restore_round_trip_witness :
    save (fun _ => ParseOutcome.ok) ⟨2025, 1, 1, 0, 0, 0⟩ 0 false false none "b"
        ⟨some "a", []⟩ =
      (.saved (some (backupFilename ⟨2025, 1, 1, 0, 0, 0⟩)),
        ⟨some "b", upsertB [] (backupFilename ⟨2025, 1, 1, 0, 0, 0⟩) "a" 0⟩) ∧
    restore_backup ⟨2025, 1, 1, 0, 0, 1⟩ 1 false none
        (backupFilename ⟨2025, 1, 1, 0, 0, 0⟩)
        ⟨some "b", upsertB [] (backupFilename ⟨2025, 1, 1, 0, 0, 0⟩) "a" 0⟩ =
      (.restored "a" (some (backupFilename ⟨2025, 1, 1, 0, 0, 1⟩)),
        ⟨some "a", upsertB (upsertB [] (backupFilename ⟨2025, 1, 1, 0, 0, 0⟩) "a" 0)
          (backupFilename ⟨2025, 1, 1, 0, 0, 1⟩) "b" 1⟩) := by
  have h := C3_restore_round_trip (fun _ => ParseOutcome.ok) ⟨2025, 1, 1, 0, 0, 0⟩
    ⟨2025, 1, 1, 0, 0, 1⟩ 0 1 "a" "b" [] rfl (by decide) (by decide) (by decide)
    (by decide)
  exact ⟨h.1, h.2.2.1⟩

/-- Claim C8 (amended): the listing returns exactly the backup-directory
files whose names end in the .yaml extension (not only those matching the
full snapshot naming convention), each annotated with size and
modification time, sorted by filename descending, which is
reverse-chronological for convention-named snapshots: times T1 before T2
before T3 are listed as T3, T2, T1. -/
theorem C8_listing_spec :
    (∀ s : St, List.Pairwise (fun a b : String => b ≤ a)
      ((list_backups s).map (fun b => b.filename))) ∧
    (∀ s : St, (s.backups.map (fun e => e.name)).Nodup →
      (list_backups s).Perm
        ((s.backups.filter (fun e => pyEndsWith e.name ".yaml")).map
          (fun e => (⟨e.name, (utf8Bytes e.content).length, e.mtime⟩ : BackupInfo)))) ∧
    (∀ t1 t2 t3 : DateTime, t1.Valid → t2.Valid → t3.Valid →
      t1.Before t2 → t2.Before t3 →
      ∀ (c1 c2 c3 : String) (m1 m2 m3 : Nat) (d : Option String),
      (list_backups ⟨d, [⟨backupFilename t1, c1, m1⟩, ⟨backupFilename t2, c2, m2⟩,
        ⟨backupFilename t3, c3, m3⟩]⟩).map (fun b => b.filename) =
      [backupFilename t3, backupFilename t2, backupFilename t1]) := by
  refine ⟨list_backups_sorted, list_backups_perm, ?_⟩
  intro t1 t2 t3 ht1 ht2 ht3 hb12 hb23 c1 c2 c3 m1 m2 m3 d
  have h12 : backupFilename t1 < backupFilename t2 := backupFilename_lt t1 t2 ht1 ht2 hb12
  have h23 : backupFilename t2 < backupFilename t3 := backupFilename_lt t2 t3 ht2 ht3 hb23
  have h13 : backupFilename t1 < backupFilename t3 := lt_trans h12 h23
  have hle12 : pyLeR (backupFilename t1) (backupFilename t2) :=
    (pyLeR_iff_le _ _).mpr h12.le
  have hle23 : pyLeR (backupFilename t2) (backupFilename t3) :=
    (pyLeR_iff_le _ _).mpr h23.le
  have hle13 : pyLeR (backupFilename t1) (backupFilename t3) :=
    (pyLeR_iff_le _ _).mpr h13.le
  have hb12f : (backupFilename t1 == backupFilename t2) = false :=
    beq_eq_false_iff_ne.mpr (ne_of_lt h12)
  have hb13f : (backupFilename t1 == backupFilename t3) = false :=
    beq_eq_false_iff_ne.mpr (ne_of_lt h13)
  have hb23f : (backupFilename t2 == backupFilename t3) = false :=
    beq_eq_false_iff_ne.mpr (ne_of_lt h23)
  simp [list_backups, List.insertionSort, List.orderedInsert, hle12, hle23, hle13,
    List.filterMap_cons, lookupB, List.find?, backupFilename_endsWith,
    hb12f, hb13f, hb23f]

/-- Counterexample to C8 as stated: a backup-directory file whose name does
not match the snapshot naming convention is still listed, because the code
filters only on the .yaml suffix. -/
theorem C8_listing_spec_cex :
    list_backups ⟨none, [⟨"foo.yaml", "x", 7⟩]⟩ =
      [⟨"foo.yaml", 1, 7⟩] ∧ ¬ matchesConvention "foo.yaml" := by
  refine ⟨by decide, ?_⟩
  rintro ⟨t, -, heq⟩
  have hlen : ("foo.yaml").data.length = 29 := by
    rw [heq]; exact backupFilename_length t
  exact absurd hlen (by decide)

/-- Witness for the amended C8 at three concrete snapshot times. -/
theorem C8_listing_spec_witness :
    (list_backups ⟨none, [⟨backupFilename ⟨2025, 1, 1, 0, 0, 0⟩, "a", 0⟩,
      ⟨backupFilename ⟨2025, 1, 1, 0, 0, 1⟩, "b", 1⟩,
      ⟨backupFilename ⟨2025, 1, 1, 0, 0, 2⟩, "c", 2⟩]⟩).map (fun b => b.filename) =
    [backupFilename ⟨2025, 1, 1, 0, 0, 2⟩, backupFilename ⟨2025, 1, 1, 0, 0, 1⟩,
      backupFilename ⟨2025, 1, 1, 0, 0, 0⟩] :=
  C8_listing_spec.2.2 ⟨2025, 1, 1, 0, 0, 0⟩ ⟨2025, 1, 1, 0, 0, 1⟩ ⟨2025, 1, 1, 0, 0, 2⟩
    (by decide) (by decide) (by decide) (by decide) (by decide) "a" "b" "c" 0 1 2 none

end YamlEditor
